import Mathlib

/-!
Verification development for the LFC ticket parser's change-detection and
event-consolidation core.

The TypeScript source is embedded shallowly:

* A Javascript `Date` is modelled at minute granularity by its calendar
  components (`JSDate`); components are assumed in canonical ranges, where the
  lexicographic order on components agrees with Javascript's comparison of
  `Date` instants (every date manipulated by the program is built from
  components and has zero seconds).
* The JSON fingerprint stored for a fixture is modelled post-parse
  (`StoredFixture`): the program serialises each valid sale's description and
  date to a string and re-parses the date with `new Date(...)` when comparing;
  that string round-trip preserves the date to the second, so the stored sale
  is modelled directly as a description plus the `JSDate` it denotes.
* The platform's human-readable rendering of a `Date` (used only inside the
  fingerprint JSON text) is passed in as an explicit `render` argument.
* Asynchronous store calls are modelled by their outcomes (`GetOutcome`,
  success booleans for put/update), and a thrown exception by a dedicated
  constructor / an `Option` result.
-/

namespace LFCT

/-- A Javascript `Date` at minute granularity: `month` is 0-based as in
`Date.getMonth()`. Components are taken in canonical calendar ranges, so the
lexicographic comparison below coincides with Javascript's instant order. -/
structure JSDate where
  year : Int
  month : Int
  day : Int
  hour : Int
  minute : Int
deriving DecidableEq

/-- Javascript `<` on two dates (instant order), at minute granularity. -/
def JSDate.lt (a b : JSDate) : Bool :=
  if a.year ≠ b.year then decide (a.year < b.year)
  else if a.month ≠ b.month then decide (a.month < b.month)
  else if a.day ≠ b.day then decide (a.day < b.day)
  else if a.hour ≠ b.hour then decide (a.hour < b.hour)
  else decide (a.minute < b.minute)

/-- The `Status` enum of a sale: pending, currently active, or ended. -/
inductive Status where
  | PENDING
  | AVAILABLE
  | ENDED
deriving DecidableEq

/-- Whether the pattern (first argument) is a prefix of the second list. -/
def leadsWith : List Char → List Char → Bool
  | [], _ => true
  | _ :: _, [] => false
  | p :: ps, c :: cs => p == c && leadsWith ps cs

/-- Substring containment on character lists: Javascript
`String.prototype.includes` / `indexOf(...) > -1`. -/
def hasSubL : List Char → List Char → Bool
  | _, [] => true
  | [], _ :: _ => false
  | c :: cs, p :: ps => leadsWith (p :: ps) (c :: cs) || hasSubL cs (p :: ps)

/-- Javascript `a.includes(b)` on strings. -/
def jsIncludes (s pat : String) : Bool := hasSubL s.toList pat.toList

/-- Javascript `a.startsWith(b)` on strings. -/
def jsStartsWith (s pat : String) : Bool := leadsWith pat.toList s.toList

/-- Javascript `String.prototype.replace` with a global plain-text pattern:
every non-overlapping occurrence of `pat` (left to right) is replaced by
`rep`. The fuel argument is only a structural-termination device: every step
consumes at least one input character (the pattern is nonempty whenever it is
taken), so fuel equal to the input length never runs out. -/
def replaceAllGo (pat rep : List Char) : Nat → List Char → List Char
  | 0, l => l
  | _ + 1, [] => []
  | fuel + 1, c :: cs =>
    if pat ≠ [] ∧ leadsWith pat (c :: cs) = true then
      rep ++ replaceAllGo pat rep fuel ((c :: cs).drop pat.length)
    else
      c :: replaceAllGo pat rep fuel cs

/-- `s.replace(pat, rep)` with a `/.../g` plain-text pattern, on strings. -/
def jsReplaceAll (s pat rep : String) : String :=
  String.mk (replaceAllGo pat.toList rep.toList s.toList.length s.toList)

/-- Javascript `toLowerCase` (ASCII-faithful). -/
def toLowerS (s : String) : String := String.mk (s.toList.map Char.toLower)

/-- Drops the final character: `s.substring(0, s.length - 1)`. -/
def dropLastS (s : String) : String := String.mk s.toList.dropLast

/-- `s.substring(n)`. -/
def substrFrom (s : String) (n : Nat) : String := String.mk (s.toList.drop n)

/-- A single sale/registration record attached to a fixture
(`src/fixtures/sale.ts`). -/
structure Sale where
  description : String
  status : Status
  date : Option JSDate
deriving DecidableEq

/-- `Sale.isValid`: pending, dated, not a local sale, not ambulant seating,
not hospitality. -/
def Sale.isValid (s : Sale) : Bool :=
  decide (s.status = Status.PENDING) && s.date.isSome &&
    !(jsStartsWith s.description "Local") &&
    !(jsIncludes s.description "ambulant") &&
    !(jsIncludes s.description "Hospitality")

/-- `Sale.equals`: identical description and status, and dates either both
null or agreeing on year/month/day and on hour/minute. -/
def Sale.equals (a b : Sale) : Bool :=
  let description := decide (a.description = b.description)
  let status := decide (a.status = b.status)
  let date :=
    match a.date, b.date with
    | none, none => true
    | some d1, some d2 =>
      decide (d1.year = d2.year) && decide (d1.month = d2.month) &&
        decide (d1.day = d2.day)
    | _, _ => false
  let time :=
    match a.date, b.date with
    | none, none => true
    | some d1, some d2 =>
      decide (d1.hour = d2.hour) && decide (d1.minute = d2.minute)
    | _, _ => false
  description && status && date && time

/-- `Sale.getJson`: the two-field fingerprint object for a valid sale;
`render` stands for the platform's `Date`-to-string coercion. -/
def Sale.getJson (render : JSDate → String) (s : Sale) : Option String :=
  if s.isValid then
    some ("\x7b\"description\":\"" ++ s.description ++ "\",\"date\":\"" ++
      (match s.date with | some d => render d | none => "null") ++ "\"\x7d")
  else
    none

/-- One sale entry of a stored fingerprint, after `JSON.parse` and after the
date string has been re-parsed by `new Date(...)`. -/
structure StoredSale where
  description : String
  date : JSDate
deriving DecidableEq

/-- The stored fingerprint of a fixture, after `JSON.parse`. -/
structure StoredFixture where
  id : String
  sales : List StoredSale
deriving DecidableEq

/-- `new Sale(stored.description, Status.PENDING, new Date(stored.date))`,
as built inside `Fixture.equals`. -/
def StoredSale.toSale (s : StoredSale) : Sale :=
  ⟨s.description, Status.PENDING, some s.date⟩

/-- An upcoming fixture (`src/fixtures/fixture.ts`); the venue is the
one-letter string H/A/N/U. `changed` defaults to true at construction. -/
structure Fixture where
  opposition : String
  venue : String
  competition : String
  ko : JSDate
  sales : List Sale
  changed : Bool

/-- First year of the season: kickoff year, minus one when the kickoff month
index is below 5. -/
def Fixture.season (f : Fixture) : Int :=
  f.ko.year - (if f.ko.month < 5 then 1 else 0)

/-- The identity key computed in the constructor:
`(season+'-'+opposition+'-'+venue+'-'+competition).toLowerCase()` with the
`&amp; ` fragment stripped and spaces replaced by hyphens. -/
def Fixture.id (f : Fixture) : String :=
  jsReplaceAll
    (jsReplaceAll
      (toLowerS (toString f.season ++ "-" ++ f.opposition ++ "-" ++ f.venue
        ++ "-" ++ f.competition))
      "&amp; " "")
    " " "-"

/-- `Fixture.getMatch`: opposition, venue, competition and season range. -/
def Fixture.getMatch (f : Fixture) : String :=
  f.opposition ++ " (" ++ f.venue ++ ") - " ++ f.competition ++ " (" ++
    toString f.season ++ "-" ++ substrFrom (toString (f.season + 1)) 2 ++ ")"

/-- `Fixture.getActiveSaleCount`: how many sales pass `isValid`. -/
def Fixture.getActiveSaleCount (f : Fixture) : Nat :=
  (f.sales.filter Sale.isValid).length

/-- `Fixture.getJson`: `null` if there is no valid sale, otherwise the
fingerprint JSON text listing every valid sale (the loop appends each valid
sale's JSON plus a comma, and the final character is chopped before
closing the array). -/
def Fixture.getJson (render : JSDate → String) (f : Fixture) : Option String :=
  if f.getActiveSaleCount = 0 then none
  else
    let body := f.sales.foldl
      (fun acc s =>
        if s.isValid then acc ++ ((s.getJson render).getD "null") ++ ","
        else acc)
      ("\x7b\"fixture\":\x7b\"id\":\"" ++ f.id ++ "\",\"match\":\"" ++
        f.getMatch ++ "\",\"sales\":[")
    some (dropLastS body ++ "]\x7d\x7d")

/-- `Fixture.equals(json)`: the asymmetric change-detection comparison. The
first loop demands a stored match for every valid live sale; the second loop
demands a live match for every stored sale unless that stored sale's date has
already passed `today`. -/
def Fixture.equals (f : Fixture) (stored : StoredFixture) (today : JSDate) :
    Bool :=
  let loop1 := f.sales.all fun s1 =>
    if s1.isValid then stored.sales.any (fun s2 => s1.equals s2.toSale)
    else true
  let loop2 := stored.sales.all fun s1 =>
    (f.sales.any fun s2 => s2.equals s1.toSale) || !(today.lt s1.date)
  loop1 && loop2

/-- Outcome of the store read at the top of `DynamoDB.sync`: the awaited
`get` either threw, found no item, or returned a fingerprint. -/
inductive GetOutcome where
  | threw
  | absent
  | found : StoredFixture → GetOutcome

/-- The observable result of `DynamoDB.sync`: the fixture's `changed` flag
after the call, and the returned boolean. -/
structure SyncResult where
  changed : Bool
  returned : Bool
deriving DecidableEq

/-- `DynamoDB.sync`: read the stored fingerprint; on a thrown read fail open
(mark changed, return false); on a missing entry create it when there are
active sales; otherwise compare fingerprints and update on a difference.
`putOk` / `updOk` are the outcomes of the store writes. -/
def DynamoDB.sync (f : Fixture) (getRes : GetOutcome) (putOk updOk : Bool)
    (today : JSDate) : SyncResult :=
  match getRes with
  | .threw => ⟨true, false⟩
  | .absent =>
    if f.getActiveSaleCount > 0 then
      if putOk then ⟨true, true⟩ else ⟨true, false⟩
    else ⟨false, true⟩
  | .found stored =>
    if !(f.equals stored today) then
      if updOk then ⟨true, true⟩ else ⟨true, false⟩
    else ⟨false, true⟩

/-- The start of a calendar event as the five-entry array
`[year, month, day, hour, minute]` handed to the ICS encoder; `month` here is
1-based (`getMonth() + 1`). -/
structure StartTuple where
  year : Int
  month : Int
  day : Int
  hour : Int
  minute : Int
deriving DecidableEq

/-- `new Date(start[0], start[1] - 1, start[2], start[3], start[4])` as built
inside `Email.construct`. -/
def StartTuple.toDate (st : StartTuple) : JSDate :=
  ⟨st.year, st.month - 1, st.day, st.hour, st.minute⟩

/-- The `EventAttributes` value produced for each sale: product id, title,
start tuple, fixed duration in minutes, busy marker. Structural equality
models `JSON.stringify` equality of two such objects (identical key order by
construction). -/
structure CalEvent where
  productId : String
  title : String
  start : StartTuple
  durationMinutes : Int
  busyStatus : String
deriving DecidableEq

/-! ### A small backtracking regex engine

The title-merging code of `Email.removeDuplicates` drives four anchored
Javascript regular expressions. Every repetition in them ranges over a
single-character class, so the patterns are embedded as sequences of the
following elements and matched by a standard backtracking matcher with the
same alternative ordering as Javascript: lazy repetitions try shorter counts
first, greedy ones longer counts first, optional groups try to match before
being skipped. Unmatched groups stay absent from the capture list (Javascript
`undefined`). -/

/-- The character classes occurring in the four title patterns: `.` (without
the `s` flag), `\s`, `\d` and `[^0-9]`. -/
inductive CClass where
  | dot
  | ws
  | digit
  | nonDigit
deriving DecidableEq

/-- `\s` (the whitespace forms occurring in this data). -/
def wsCh (c : Char) : Bool := c == ' ' || c == '\t' || c == '\n' || c == '\r'

/-- `\d` / `[0-9]`. -/
def digitCh (c : Char) : Bool := 48 ≤ c.toNat && c.toNat ≤ 57

/-- Whether a character belongs to a class; `.` matches everything except a
line terminator. -/
def CClass.test : CClass → Char → Bool
  | .dot, c => !(c == '\n' || c == '\r')
  | .ws, c => wsCh c
  | .digit, c => digitCh c
  | .nonDigit, c => !(digitCh c)

/-- One element of an anchored pattern: a literal, a repetition of a
character class (class, minimum, optional maximum, lazy flag), or a group
(capture index with 0 for non-capturing, optional flag, body). -/
inductive RElem where
  | lit : List Char → RElem
  | reps : CClass → Nat → Option Nat → Bool → RElem
  | grp : Nat → Bool → List RElem → RElem

/-- Capture list: group index paired with the captured characters. -/
def Caps := List (Nat × List Char)

/-- The capture recorded for a group, if the group participated. -/
def capGet (caps : Caps) (i : Nat) : Option (List Char) :=
  match caps with
  | [] => none
  | p :: rest => if p.1 = i then some p.2 else capGet rest i

/-- Length of the longest run of leading characters satisfying `p`. -/
def takeCount (p : Char → Bool) : List Char → Nat
  | [] => 0
  | c :: cs => if p c then takeCount p cs + 1 else 0

/-- First successful alternative. -/
def firstSome (f : Nat → Option Caps) : List Nat → Option Caps
  | [] => none
  | n :: ns =>
    match f n with
    | some r => some r
    | none => firstSome f ns

/-- Backtracking matcher in continuation style: match the element sequence
against the input, threading captures, and hand the rest of the input to the
continuation. The fuel argument is only a structural-termination device;
every recursive call is on either the tail of the sequence or the body of
its head group, both of strictly smaller `sizeOf`, so the `sizeOf`-based
fuel supplied by `matchFull` never runs out. -/
def mtch : Nat → List RElem → List Char → Caps →
    (List Char → Caps → Option Caps) → Option Caps
  | _, [], s, caps, k => k s caps
  | 0, _ :: _, _, _, _ => none
  | fuel + 1, .lit l :: rest, s, caps, k =>
    if leadsWith l s then mtch fuel rest (s.drop l.length) caps k else none
  | fuel + 1, .reps p lo hi lz :: rest, s, caps, k =>
    let mx := takeCount p.test s
    let upper := match hi with | none => mx | some h => min h mx
    if lo > upper then none
    else
      let ns := List.range' lo (upper + 1 - lo)
      firstSome (fun n => mtch fuel rest (s.drop n) caps k)
        (if lz then ns else ns.reverse)
  | fuel + 1, .grp i opt inner :: rest, s, caps, k =>
    let attempt := mtch fuel inner s caps fun s2 caps2 =>
      mtch fuel rest s2
        (if i = 0 then caps2 else (i, s.take (s.length - s2.length)) :: caps2)
        k
    match attempt, opt with
    | some r, _ => some r
    | none, true => mtch fuel rest s caps k
    | none, false => none

/-- Match a `^...$`-anchored pattern against the whole input. The recursion
depth of `mtch` is bounded by the number of pattern constructors (each call
moves to the tail of the sequence or into the body of its head group, and
backtracking re-runs continuations built at shallower depth with their own
captured fuel), so any fuel above that count is never exhausted; the four
patterns below have fewer than thirty constructors, and 100 is ample. -/
def matchFull (re : List RElem) (s : List Char) : Option Caps :=
  mtch 100 re s [] fun s2 caps =>
    if s2.isEmpty then some caps else none

/-- Shorthand for literal pattern text. -/
def sL (s : String) : List Char := s.toList

/-- The title shape shared by `extractOpposition` and the plain branch of
`tidySale`: the source pattern
`^(.+?)\s\(H\)\s:\s(.+?)(\((.*?)\))?$`. -/
def reTitle : List RElem :=
  [ .grp 1 false [ .reps .dot 1 none true ],
    .reps .ws 1 (some 1) true,
    .lit (sL "(H)"),
    .reps .ws 1 (some 1) true,
    .lit (sL ":"),
    .reps .ws 1 (some 1) true,
    .grp 2 false [ .reps .dot 1 none true ],
    .grp 3 true
      [ .lit (sL "("), .grp 4 false [ .reps .dot 0 none true ],
        .lit (sL ")") ] ]

/-- The already-merged bulk-sale title shape: the source pattern
`^Bulk Sale \((.+?)\)\s:\s(.*?)\((.+?)\)$`. -/
def reBulk : List RElem :=
  [ .lit (sL "Bulk Sale ("),
    .grp 1 false [ .reps .dot 1 none true ],
    .lit (sL ")"),
    .reps .ws 1 (some 1) true,
    .lit (sL ":"),
    .reps .ws 1 (some 1) true,
    .grp 2 false [ .reps .dot 0 none true ],
    .lit (sL "("),
    .grp 3 false [ .reps .dot 1 none true ],
    .lit (sL ")") ]

/-- The already-merged registration title shape: the source pattern
`^Registration \((.+?)\)\s:\s(.*?)\((.*?)\)$`. -/
def reRegMerged : List RElem :=
  [ .lit (sL "Registration ("),
    .grp 1 false [ .reps .dot 1 none true ],
    .lit (sL ")"),
    .reps .ws 1 (some 1) true,
    .lit (sL ":"),
    .reps .ws 1 (some 1) true,
    .grp 2 false [ .reps .dot 0 none true ],
    .lit (sL "("),
    .grp 3 false [ .reps .dot 0 none true ],
    .lit (sL ")") ]

/-- The registration title decomposition: the source pattern
`^(.+?)\s\(H\)\s:\s([^0-9]+)((\d{1,2}\+)?)(.*?)Registration(?:\s\()?(\d{1,2}\+)?.*?$`. -/
def reRegComplex : List RElem :=
  [ .grp 1 false [ .reps .dot 1 none true ],
    .reps .ws 1 (some 1) true,
    .lit (sL "(H)"),
    .reps .ws 1 (some 1) true,
    .lit (sL ":"),
    .reps .ws 1 (some 1) true,
    .grp 2 false [ .reps .nonDigit 1 none false ],
    .grp 3 false
      [ .grp 4 true [ .reps .digit 1 (some 2) false, .lit (sL "+") ] ],
    .grp 5 false [ .reps .dot 0 none true ],
    .lit (sL "Registration"),
    .grp 0 true [ .reps .ws 1 (some 1) true, .lit (sL "(") ],
    .grp 6 true [ .reps .digit 1 (some 2) false, .lit (sL "+") ],
    .reps .dot 0 none true ]

/-- One piece of a replacement string: literal text or a `$n` group
reference (an absent group inserts nothing, as in Javascript). -/
inductive TItem where
  | s : String → TItem
  | g : Nat → TItem

/-- Assemble the replacement text from the captures. -/
def renderT (caps : Caps) : List TItem → List Char
  | [] => []
  | .s str :: rest => sL str ++ renderT caps rest
  | .g i :: rest => ((capGet caps i).getD []) ++ renderT caps rest

/-- `t.replace(re, tmpl)` for a fully-anchored pattern: the whole string is
replaced on a match, and left untouched when the pattern does not match. -/
def jsRepl (re : List RElem) (tmpl : List TItem) (t : List Char) :
    List Char :=
  match matchFull re t with
  | none => t
  | some caps => renderT caps tmpl

/-- `t.replace(/\s{2,}/, ' ')`: the first maximal run of two or more
whitespace characters becomes a single space. -/
def collapseWsL : List Char → List Char
  | [] => []
  | [c] => [c]
  | c1 :: c2 :: rest =>
    if wsCh c1 && wsCh c2 then ' ' :: rest.dropWhile (fun c => wsCh c)
    else c1 :: collapseWsL (c2 :: rest)

/-- The `KeyEventData` record of `removeDuplicates`. -/
structure KeyEventData where
  opposition : String
  criteria : Option String

/-- `extractOpposition`: match the candidate title against `reTitle` and read
off the opposition (group 1) and the criteria (group 4, possibly absent).
`none` models the `TypeError` thrown by `match![1]` when there is no match. -/
def extractOpposition (title : String) : Option KeyEventData :=
  match matchFull reTitle (sL title) with
  | none => none
  | some caps =>
    some ⟨String.mk ((capGet caps 1).getD []), (capGet caps 4).map String.mk⟩

/-- `tidySale`: compute the search pattern and replacement template used to
rewrite the accumulated sale title when the candidate shares its start. -/
def tidySale (originalTitle currentTitle : String) :
    Option (List RElem × List TItem) := do
  let data ← extractOpposition currentTitle
  let criteria0 :=
    match data.criteria with
    | some c => if c ≠ "" then c else "General"
    | none => "General"
  let criteria :=
    if jsIncludes originalTitle criteria0 then "" else ", " ++ criteria0
  if jsStartsWith originalTitle "Bulk Sale" then
    return (reBulk,
      [ .s "Bulk Sale (", .g 1, .s (", " ++ data.opposition ++ ") : "),
        .g 2, .s "(", .g 3, .s (criteria ++ ")") ])
  else
    return (reTitle,
      [ .s "Bulk Sale (", .g 1, .s (", " ++ data.opposition ++ ") : "),
        .g 2, .s "(", .g 4, .s (criteria ++ ")") ])

/-- `tidyRegistration`: the registration counterpart of `tidySale`,
extracting the candidate's credit criteria from group 3 or group 6 of
`reRegComplex` (defaulting to General) before building the template. -/
def tidyRegistration (originalTitle currentTitle : String) :
    Option (List RElem × List TItem) := do
  let data ← extractOpposition currentTitle
  let m := matchFull reRegComplex (sL currentTitle)
  let ci : String × Nat :=
    match m with
    | some caps =>
      match capGet caps 3 with
      | some c3 =>
        if c3 ≠ [] then (String.mk c3, 3)
        else
          match capGet caps 6 with
          | some c6 => (String.mk c6, 6)
          | none => ("General", 3)
      | none =>
        match capGet caps 6 with
        | some c6 => (String.mk c6, 6)
        | none => ("General", 3)
    | none => ("General", 3)
  let criteria :=
    if jsIncludes originalTitle ci.1 then "" else ", " ++ ci.1
  if jsStartsWith originalTitle "Registration" then
    if jsIncludes originalTitle data.opposition then
      return (reRegMerged,
        [ .s "Registration (", .g 1, .s ") : ", .g 2, .s "(", .g 3,
          .s (criteria ++ ")") ])
    else
      return (reRegMerged,
        [ .s "Registration (", .g 1, .s (", " ++ data.opposition ++ ") : "),
          .g 2, .s "(", .g 3, .s (criteria ++ ")") ])
  else
    if jsIncludes originalTitle data.opposition then
      return (reRegComplex,
        [ .s "Registration (", .g 1, .s ") : ", .g 2, .g 5, .s "(",
          .g ci.2, .s (criteria ++ ")") ])
    else
      return (reRegComplex,
        [ .s "Registration (", .g 1, .s (", " ++ data.opposition ++ ") : "),
          .g 2, .g 5, .s "(", .g ci.2, .s (criteria ++ ")") ])

/-- The title rewrite applied to the accumulated event when a candidate with
the same start is absorbed: dispatch on whether the accumulated title
mentions Registration, apply the anchored replace, then collapse the first
doubled whitespace. -/
def mergeTitles (originalTitle currentTitle : String) : Option String := do
  let sr ←
    if jsIncludes originalTitle "Registration" then
      tidyRegistration originalTitle currentTitle
    else
      tidySale originalTitle currentTitle
  return String.mk (collapseWsL (jsRepl sr.1 sr.2 (sL originalTitle)))

/-- Result of testing one candidate event against the accumulated list:
a merge step threw, the candidate was dropped (possibly retitling one
accumulated event), or the candidate is unique. -/
inductive ScanRes where
  | failed
  | absorbed : List CalEvent → ScanRes
  | unique

/-- The inner loop of `removeDuplicates`: test the candidate against each
accumulated event in order — an identical event is dropped, an event sharing
the start timestamp absorbs the candidate into a rewritten title, otherwise
continue. -/
def scanEvent (e : CalEvent) : List CalEvent → ScanRes
  | [] => .unique
  | u :: us =>
    if e = u then .absorbed (u :: us)
    else if e.start = u.start then
      match mergeTitles u.title e.title with
      | none => .failed
      | some t => .absorbed ({ u with title := t } :: us)
    else
      match scanEvent e us with
      | .failed => .failed
      | .absorbed us2 => .absorbed (u :: us2)
      | .unique => .unique

/-- The outer loop of `removeDuplicates` over the remaining events, carrying
the accumulated (cleansed) list. `none` models a thrown merge error. -/
def consolidate (cleansed : List CalEvent) :
    List CalEvent → Option (List CalEvent)
  | [] => some cleansed
  | e :: es =>
    match scanEvent e cleansed with
    | .failed => none
    | .absorbed c2 => consolidate c2 es
    | .unique => consolidate (cleansed ++ [e]) es

/-- `Email.removeDuplicates`: an empty input is returned at once; otherwise
the accumulator is seeded with the first event and every later event is
tested against it. -/
def Email.removeDuplicates (events : List CalEvent) :
    Option (List CalEvent) :=
  match events with
  | [] => some []
  | e0 :: rest => consolidate [e0] rest

/-- The observable outcome of `Email.construct`: the retained events and the
argument lists of the calls made to the ICS encoder (`ICS.createEvents`). -/
structure ConstructResult where
  events : List CalEvent
  icsCalls : List (List CalEvent)
deriving DecidableEq

/-- `Email.construct`: deduplicate and merge, drop every event whose
reconstructed start date is not strictly after `today`, then hand the
retained events to the ICS encoder (whose own output is external to this
model; the invocation is recorded). -/
def Email.construct (events : List CalEvent) (today : JSDate) :
    Option ConstructResult :=
  match Email.removeDuplicates events with
  | none => none
  | some unique =>
    let future := unique.filter fun e => today.lt e.start.toDate
    some ⟨future, [future]⟩

/-- A Javascript object reference holding one backed-up calendar event:
`oid` is the heap identity, `content` the event value. `Array.includes`
compares with SameValueZero, which on objects is reference identity; in any
well-formed heap two references with equal `oid` are the same object and so
hold the same content. -/
structure EventRef where
  oid : Nat
  content : CalEvent
deriving DecidableEq

/-- A day's backup of unsent events (`src/persistence/backup.ts`). -/
structure Backup where
  date : JSDate
  events : List EventRef

/-- The loop body of `Backup.merge`: push each incoming event unless
`this.events.includes` it (checked against the list as grown so far). -/
def Backup.mergeEvents (mine : List EventRef) :
    List EventRef → List EventRef
  | [] => mine
  | e :: es =>
    Backup.mergeEvents (if mine.contains e then mine else mine ++ [e]) es

/-- `Backup.merge(backup)`. -/
def Backup.merge (b1 b2 : Backup) : Backup :=
  { b1 with events := Backup.mergeEvents b1.events b2.events }

/-! ### Theorems -/

/-- A guarded conjunct of a loop body: the `continue` pattern. -/
theorem if_true_guard (c x : Bool) :
    ((if c then x else true) = true) ↔ (c = true → x = true) := by
  cases c <;> simp

/-- C5: a Sale is valid exactly when its status is PENDING, its date is
non-null, and its description neither starts with "Local" nor contains
"ambulant" nor contains "Hospitality". -/
theorem sale_isValid_spec (s : Sale) :
    s.isValid = true ↔
      (s.status = Status.PENDING ∧ s.date ≠ none ∧
        jsStartsWith s.description "Local" = false ∧
        jsIncludes s.description "ambulant" = false ∧
        jsIncludes s.description "Hospitality" = false) := by
  simp [Sale.isValid, Option.isSome_iff_ne_none, Bool.and_eq_true,
    Bool.not_eq_true', decide_eq_true_iff, and_assoc]

/-- C1: `Fixture.equals` returns true exactly when every valid live sale has
a stored match and every stored sale either has a live match or carries a
date that is no longer in the future; in particular a stored sale that is
missing live but already past does not make the fixtures unequal. -/
theorem fixture_equals_spec (f : Fixture) (stored : StoredFixture)
    (today : JSDate) :
    f.equals stored today = true ↔
      ((∀ s ∈ f.sales, s.isValid = true →
          ∃ t ∈ stored.sales, s.equals t.toSale = true) ∧
       (∀ t ∈ stored.sales,
          (∃ s ∈ f.sales, s.equals t.toSale = true) ∨
            today.lt t.date = false)) := by
  simp only [Fixture.equals, Bool.and_eq_true, List.all_eq_true,
    List.any_eq_true, if_true_guard, Bool.or_eq_true, Bool.not_eq_true']

/-- C2: when the store read inside `sync` throws, the fixture is marked
changed and `sync` returns false, regardless of everything else. -/
theorem sync_read_failure_fails_open (f : Fixture) (putOk updOk : Bool)
    (today : JSDate) :
    DynamoDB.sync f GetOutcome.threw putOk updOk today =
      { changed := true, returned := false } := rfl

/-- C10: appending an invalid sale changes neither the active-sale count nor
the fingerprint JSON of a fixture. -/
theorem invalid_sale_inert (f : Fixture) (s : Sale)
    (render : JSDate → String) (h : s.isValid = false) :
    Fixture.getActiveSaleCount { f with sales := f.sales ++ [s] } =
        f.getActiveSaleCount ∧
      Fixture.getJson render { f with sales := f.sales ++ [s] } =
        f.getJson render := by
  have hc : Fixture.getActiveSaleCount { f with sales := f.sales ++ [s] } =
      f.getActiveSaleCount := by
    simp [Fixture.getActiveSaleCount, List.filter_append, List.filter, h]
  refine ⟨hc, ?_⟩
  simp only [Fixture.getJson, hc]
  simp [List.foldl_append, List.foldl, h, Fixture.id, Fixture.getMatch,
    Fixture.season]

/-- Concrete data for the C10 witness. -/
def renderPlain : JSDate → String := fun _ => "Mon Aug 19 2024 11:00:00"

/-- Concrete data for the C10 witness. -/
def salePending : Sale :=
  ⟨"Members Sale (13+)", Status.PENDING, some ⟨2024, 8, 4, 8, 15⟩⟩

/-- Concrete data for the C10 witness. -/
def saleEnded : Sale :=
  ⟨"Members Sale (4+)", Status.ENDED, some ⟨2024, 7, 1, 9, 0⟩⟩

/-- Concrete data for the C10 witness and the C8 counterexample. -/
def fixtureSpring : Fixture :=
  ⟨"Chelsea", "H", "Premier League", ⟨2024, 4, 1, 15, 0⟩, [salePending], true⟩

/-- Witness for C10 at a concrete fixture and an ended sale. -/
theorem invalid_sale_inert_witness :
    saleEnded.isValid = false ∧
      (Fixture.getActiveSaleCount
            { fixtureSpring with sales := fixtureSpring.sales ++ [saleEnded] } =
          fixtureSpring.getActiveSaleCount ∧
        Fixture.getJson renderPlain
            { fixtureSpring with sales := fixtureSpring.sales ++ [saleEnded] } =
          fixtureSpring.getJson renderPlain) :=
  ⟨by decide, invalid_sale_inert fixtureSpring saleEnded renderPlain (by decide)⟩

/-- Concrete data for the C8 counterexample: same fixture, kickoff moved from
May 2024 to August 2024. -/
def fixtureAutumn : Fixture :=
  { fixtureSpring with ko := ⟨2024, 7, 25, 16, 30⟩ }

/-- C8 counterexample: two fixtures with identical opposition, venue and
competition but kickoffs on either side of the season boundary get different
ids, so a kickoff change alone can change the id. -/
theorem fixture_id_kickoff_cex :
    fixtureSpring.opposition = fixtureAutumn.opposition ∧
      fixtureSpring.venue = fixtureAutumn.venue ∧
      fixtureSpring.competition = fixtureAutumn.competition ∧
      fixtureSpring.ko ≠ fixtureAutumn.ko ∧
      fixtureSpring.id ≠ fixtureAutumn.id := by
  refine ⟨rfl, rfl, rfl, by decide, ?_⟩
  decide

/-- C8 (amended): the id depends only on season, opposition, venue and
competition, so any kickoff change that preserves the computed season
preserves the id. -/
theorem fixture_id_stable (f g : Fixture) (hOpp : f.opposition = g.opposition)
    (hVen : f.venue = g.venue) (hComp : f.competition = g.competition)
    (hSeason : f.season = g.season) : f.id = g.id := by
  simp [Fixture.id, hOpp, hVen, hComp, hSeason]

/-- Concrete data for the C8 witness: a January kickoff of the same season. -/
def fixtureWinter : Fixture :=
  { fixtureSpring with ko := ⟨2025, 0, 10, 20, 0⟩ }

/-- Witness for C8 at two concrete kickoffs inside one season. -/
theorem fixture_id_stable_witness :
    (fixtureAutumn.opposition = fixtureWinter.opposition ∧
      fixtureAutumn.venue = fixtureWinter.venue ∧
      fixtureAutumn.competition = fixtureWinter.competition ∧
      fixtureAutumn.season = fixtureWinter.season) ∧
      fixtureAutumn.id = fixtureWinter.id :=
  ⟨⟨rfl, rfl, rfl, by decide⟩,
    fixture_id_stable fixtureAutumn fixtureWinter rfl rfl rfl (by decide)⟩

/-! ### Consolidator invariants -/

/-- Two events agreeing on every field except possibly the title (the only
field the absorb step may rewrite). -/
def eqExceptTitle (a b : CalEvent) : Prop :=
  a.productId = b.productId ∧ a.start = b.start ∧
    a.durationMinutes = b.durationMinutes ∧ a.busyStatus = b.busyStatus

theorem eqExceptTitle_rfl (a : CalEvent) : eqExceptTitle a a :=
  ⟨rfl, rfl, rfl, rfl⟩

theorem eqExceptTitle_trans {a b c : CalEvent} (h1 : eqExceptTitle a b)
    (h2 : eqExceptTitle b c) : eqExceptTitle a c :=
  ⟨h1.1.trans h2.1, h1.2.1.trans h2.2.1, h1.2.2.1.trans h2.2.2.1,
    h1.2.2.2.trans h2.2.2.2⟩

theorem forall2_eqT_refl (l : List CalEvent) :
    List.Forall₂ eqExceptTitle l l := by
  induction l with
  | nil => exact List.Forall₂.nil
  | cons a l ih => exact List.Forall₂.cons (eqExceptTitle_rfl a) ih

theorem forall2_eqT_trans : ∀ {l1 l2 l3 : List CalEvent},
    List.Forall₂ eqExceptTitle l1 l2 → List.Forall₂ eqExceptTitle l2 l3 →
    List.Forall₂ eqExceptTitle l1 l3 := by
  intro l1 l2 l3 h1
  induction h1 generalizing l3 with
  | nil => intro h2; cases h2; exact List.Forall₂.nil
  | cons hab htail ih =>
    intro h2
    cases h2 with
    | cons hbc htail2 =>
      exact List.Forall₂.cons (eqExceptTitle_trans hab hbc) (ih htail2)

/-- The start timestamps of a list of events, in order. -/
def startsOf (l : List CalEvent) : List StartTuple := l.map fun e => e.start

theorem forall2_eqT_starts : ∀ {l1 l2 : List CalEvent},
    List.Forall₂ eqExceptTitle l1 l2 → startsOf l1 = startsOf l2 := by
  intro l1 l2 h
  induction h with
  | nil => rfl
  | cons hab _ ih => simp only [startsOf, List.map_cons] at ih ⊢
                     rw [hab.2.1, ih]

theorem forall2_eqT_append_one : ∀ {l : List CalEvent} {e : CalEvent}
    {d : List CalEvent}, List.Forall₂ eqExceptTitle (l ++ [e]) d →
    ∃ d1 e2, d = d1 ++ [e2] ∧ List.Forall₂ eqExceptTitle l d1 ∧
      eqExceptTitle e e2 := by
  intro l
  induction l with
  | nil =>
    intro e d h
    cases h with
    | cons hab htail =>
      cases htail
      exact ⟨[], _, rfl, List.Forall₂.nil, hab⟩
  | cons a l ih =>
    intro e d h
    cases h with
    | cons hab htail =>
      obtain ⟨d1, e2, rfl, hf, he⟩ := ih htail
      exact ⟨_ :: d1, e2, rfl, List.Forall₂.cons hab hf, he⟩

/-- An absorbed candidate leaves the accumulated list unchanged except for
possibly one rewritten title. -/
theorem scanEvent_absorbed (e : CalEvent) : ∀ (cl c2 : List CalEvent),
    scanEvent e cl = .absorbed c2 → List.Forall₂ eqExceptTitle cl c2 := by
  intro cl
  induction cl with
  | nil => intro c2 h; simp [scanEvent] at h
  | cons u us ih =>
    intro c2 h
    unfold scanEvent at h
    split at h
    · simp only [ScanRes.absorbed.injEq] at h
      rw [← h]
      exact forall2_eqT_refl _
    · split at h
      · split at h
        · exact absurd h (by simp)
        · simp only [ScanRes.absorbed.injEq] at h
          rw [← h]
          exact List.Forall₂.cons ⟨rfl, rfl, rfl, rfl⟩ (forall2_eqT_refl us)
      · split at h
        · exact absurd h (by simp)
        · rename_i us2 hrec
          simp only [ScanRes.absorbed.injEq] at h
          rw [← h]
          exact List.Forall₂.cons (eqExceptTitle_rfl u) (ih us2 hrec)
        · exact absurd h (by simp)

/-- A unique candidate's start differs from every accumulated start. -/
theorem scanEvent_unique (e : CalEvent) : ∀ cl : List CalEvent,
    scanEvent e cl = .unique → ∀ u ∈ cl, ¬ e.start = u.start := by
  intro cl
  induction cl with
  | nil => intro _ u hu; cases hu
  | cons v vs ih =>
    intro h u hu
    unfold scanEvent at h
    split at h
    · exact absurd h (by simp)
    · split at h
      · split at h <;> exact absurd h (by simp)
      · rename_i hne hstart
        cases hu with
        | head => exact hstart
        | tail _ hmem =>
          split at h
          · exact absurd h (by simp)
          · exact absurd h (by simp)
          · rename_i hrec
            exact ih hrec u hmem

/-- Invariants of the outer consolidation loop: the result is the incoming
accumulator (titles possibly rewritten) followed by appended events, its
length is bounded, and pairwise-distinct starts are preserved. -/
theorem consolidate_spec (es : List CalEvent) : ∀ cleansed out : List CalEvent,
    consolidate cleansed es = some out →
      ∃ c2 t, out = c2 ++ t ∧ List.Forall₂ eqExceptTitle cleansed c2 ∧
        out.length ≤ cleansed.length + es.length ∧
        ((startsOf cleansed).Pairwise (· ≠ ·) →
          (startsOf out).Pairwise (· ≠ ·)) := by
  induction es with
  | nil =>
    intro cleansed out h
    simp only [consolidate, Option.some.injEq] at h
    subst h
    exact ⟨cleansed, [], by simp, forall2_eqT_refl _, by simp, fun hp => hp⟩
  | cons e es ih =>
    intro cleansed out h
    unfold consolidate at h
    cases hscan : scanEvent e cleansed with
    | failed => rw [hscan] at h; cases h
    | absorbed c2 =>
      rw [hscan] at h
      obtain ⟨d, t, hout, hf2, hlen, hpw⟩ := ih c2 out h
      have hcl2 := scanEvent_absorbed e cleansed c2 hscan
      have hstarts := forall2_eqT_starts hcl2
      have hlencl := List.Forall₂.length_eq hcl2
      refine ⟨d, t, hout, forall2_eqT_trans hcl2 hf2, ?_, ?_⟩
      · simp only [List.length_cons]
        omega
      · intro hp
        exact hpw (hstarts ▸ hp)
    | unique =>
      rw [hscan] at h
      obtain ⟨d, t, hout, hf2, hlen, hpw⟩ := ih (cleansed ++ [e]) out h
      obtain ⟨d1, e2, rfl, hfa, he⟩ := forall2_eqT_append_one hf2
      refine ⟨d1, e2 :: t, by simpa using hout, hfa, ?_, ?_⟩
      · simp only [List.length_append, List.length_cons,
          List.length_nil] at hlen ⊢
        omega
      · intro hp
        refine hpw ?_
        have hsplit : startsOf (cleansed ++ [e]) =
            startsOf cleansed ++ [e.start] := by simp [startsOf]
        rw [hsplit, List.pairwise_append]
        refine ⟨hp, List.pairwise_singleton _ _, ?_⟩
        intro a ha b hb
        simp only [List.mem_singleton] at hb
        subst hb
        simp only [startsOf, List.mem_map] at ha
        obtain ⟨u, hu, rfl⟩ := ha
        exact fun hab => scanEvent_unique e cleansed hscan u hu hab.symm

/-- C9 (amended): whenever consolidation completes, no two positions of the
output share a start timestamp, the output is no longer than the input, and
for non-empty input the output starts with the first input event carrying a
possibly-rewritten title (every other field unchanged). -/
theorem removeDuplicates_invariants (events out : List CalEvent)
    (h : Email.removeDuplicates events = some out) :
    (out.Pairwise fun a b => a.start ≠ b.start) ∧
      out.length ≤ events.length ∧
      (∀ e0 rest, events = e0 :: rest →
        ∃ e1 t, out = e1 :: t ∧ eqExceptTitle e0 e1) := by
  match events with
  | [] =>
    simp only [Email.removeDuplicates, Option.some.injEq] at h
    subst h
    exact ⟨List.Pairwise.nil, by simp, fun e0 rest hx => by cases hx⟩
  | e0 :: rest =>
    simp only [Email.removeDuplicates] at h
    obtain ⟨c2, t, hout, hf2, hlen, hpw⟩ := consolidate_spec rest [e0] out h
    cases hf2 with
    | cons he1 htail =>
      cases htail
      refine ⟨?_, ?_, ?_⟩
      · have hp : (startsOf out).Pairwise (· ≠ ·) := by
          refine hpw ?_
          simp [startsOf]
        rw [startsOf, List.pairwise_map] at hp
        exact hp
      · simp only [List.length_cons, List.length_nil] at hlen ⊢
        omega
      · intro f0 frest heq
        cases heq
        exact ⟨_, t, by simpa using hout, he1⟩

/-- Concrete data for the C9 counterexample and witness. -/
def villaSale : CalEvent :=
  ⟨"lfctickets/ics", "Aston Villa (H) : Members Sale (13+)",
    ⟨2026, 2, 15, 8, 15⟩, 60, "BUSY"⟩

/-- Concrete data for the C9 counterexample and witness. -/
def evertonSale : CalEvent :=
  { villaSale with title := "Everton (H) : Members Sale (13+)" }

/-- C9 counterexample: when two same-start events merge, the output's first
element carries the merged "Bulk Sale" title, so the first input event (as a
value, title included) is not present in the output. -/
theorem removeDuplicates_first_event_cex :
    ¬ (∀ out, Email.removeDuplicates [villaSale, evertonSale] = some out →
        villaSale ∈ out) := by
  intro hclaim
  have h := hclaim
    [{ villaSale with
        title := "Bulk Sale (Aston Villa, Everton) : Members Sale (13+)" }]
    (by decide)
  revert h
  decide

/-- Witness for C9 at a concrete merging input. -/
theorem removeDuplicates_invariants_witness :
    Email.removeDuplicates [villaSale, evertonSale] =
        some [{ villaSale with
          title := "Bulk Sale (Aston Villa, Everton) : Members Sale (13+)" }] ∧
      (([{ villaSale with
            title :=
              "Bulk Sale (Aston Villa, Everton) : Members Sale (13+)" }].Pairwise
          fun a b : CalEvent => a.start ≠ b.start) ∧
        [{ villaSale with
            title :=
              "Bulk Sale (Aston Villa, Everton) : Members Sale (13+)" }].length ≤
          [villaSale, evertonSale].length ∧
        (∀ e0 rest, [villaSale, evertonSale] = e0 :: rest →
          ∃ e1 t, [{ villaSale with
              title :=
                "Bulk Sale (Aston Villa, Everton) : Members Sale (13+)" }] =
              e1 :: t ∧ eqExceptTitle e0 e1)) :=
  ⟨by decide,
    removeDuplicates_invariants [villaSale, evertonSale] _ (by decide)⟩

/-- Concrete data for C3: the two same-start sale events of the claim. -/
def chelseaSale : CalEvent :=
  ⟨"lfctickets/ics", "Chelsea (H) : Members Sale (13+)",
    ⟨2026, 1, 8, 8, 15⟩, 60, "BUSY"⟩

/-- Concrete data for C3. -/
def brightonSale : CalEvent :=
  { chelseaSale with title := "Brighton (H) : Members Sale (13+)" }

/-- C3: consolidating the two same-start events absorbs the Brighton
candidate into the Chelsea event and produces exactly one event with the
merged title, the shared 13+ criteria listed once. -/
theorem bulk_sale_merge :
    Email.removeDuplicates [chelseaSale, brightonSale] =
      some [{ chelseaSale with
        title := "Bulk Sale (Chelsea, Brighton) : Members Sale (13+)" }] := by
  decide

/-- C4: every event retained by `Email.construct` starts strictly after
`today`, and every event not strictly in the future is excluded. -/
theorem construct_future_filter (events : List CalEvent) (today : JSDate)
    (out : ConstructResult) (h : Email.construct events today = some out) :
    (∀ e ∈ out.events, today.lt e.start.toDate = true) ∧
      (∀ e, today.lt e.start.toDate = false → e ∉ out.events) := by
  unfold Email.construct at h
  cases hrd : Email.removeDuplicates events with
  | none => rw [hrd] at h; cases h
  | some unique =>
    rw [hrd] at h
    simp only [Option.some.injEq] at h
    subst h
    constructor
    · intro e he
      exact (List.mem_filter.mp he).2
    · intro e hfalse he
      have := (List.mem_filter.mp he).2
      rw [hfalse] at this
      cases this

/-- Concrete data for the C4 witness and the C6 theorems. -/
def nowWinter : JSDate := ⟨2026, 0, 1, 0, 0⟩

/-- Concrete data for the C4 witness: one event in 2030. -/
def futureSale : CalEvent :=
  ⟨"lfctickets/ics", "Everton (H) : Members Sale", ⟨2030, 1, 1, 10, 0⟩,
    60, "BUSY"⟩

/-- Witness for C4 at a concrete run of `construct`. -/
theorem construct_future_filter_witness :
    Email.construct [futureSale] nowWinter =
        some { events := [futureSale], icsCalls := [[futureSale]] } ∧
      ((∀ e ∈ (ConstructResult.mk [futureSale] [[futureSale]]).events,
          nowWinter.lt e.start.toDate = true) ∧
        (∀ e, nowWinter.lt e.start.toDate = false →
          e ∉ (ConstructResult.mk [futureSale] [[futureSale]]).events)) :=
  ⟨by decide, construct_future_filter [futureSale] nowWinter _ (by decide)⟩

/-- C6 counterexample: on the empty input `construct` still invokes the ICS
encoder (once, with the empty list), so "the generator is never invoked" is
false. -/
theorem construct_empty_invokes_encoder :
    ¬ (∀ r, Email.construct [] nowWinter = some r → r.icsCalls = []) := by
  intro hclaim
  have h := hclaim ⟨[], [[]]⟩ rfl
  simp at h

/-- C6 (amended): the dedup step returns an empty input at once, and
`construct` on an empty input yields an empty event set while still invoking
the ICS encoder exactly once, with that empty list. -/
theorem construct_empty_result (today : JSDate) :
    Email.removeDuplicates [] = some [] ∧
      Email.construct [] today = some { events := [], icsCalls := [[]] } :=
  ⟨rfl, rfl⟩

/-! ### Backup merge -/

/-- Concrete data for the C7 counterexample. -/
def milanReg : CalEvent :=
  ⟨"lfctickets/ics", "AC Milan (A) : ST Holders and Members Registration",
    ⟨2026, 1, 12, 13, 0⟩, 60, "BUSY"⟩

/-- Concrete data for the C7 counterexample: two distinct objects holding the
same event value. -/
def backupHeld : Backup := ⟨⟨2026, 0, 1, 0, 0⟩, [⟨0, milanReg⟩]⟩

/-- Concrete data for the C7 counterexample. -/
def backupIncoming : Backup := ⟨⟨2026, 0, 2, 0, 0⟩, [⟨1, milanReg⟩]⟩

/-- C7 counterexample: `merge` appends an incoming event whose content is
byte-identical to an already-held event, because `Array.includes` compares
object references, not content. -/
theorem backup_merge_content_dup_cex :
    (Backup.merge backupHeld backupIncoming).events =
        [⟨0, milanReg⟩, ⟨1, milanReg⟩] ∧
      (EventRef.mk 1 milanReg).content = (EventRef.mk 0 milanReg).content ∧
      (Backup.merge backupHeld backupIncoming).events ≠ backupHeld.events := by
  refine ⟨by decide, rfl, by decide⟩

/-- C7 (amended): `merge` appends exactly those incoming events that are not
reference-identical to an event already held at the time of their check: the
held list is a prefix of the result, the appended tail consists of incoming
events absent from the held list with no reference repeated, and every
incoming event ends up in the result. -/
theorem backup_merge_appends_new (mine others : List EventRef) :
    ∃ t, Backup.mergeEvents mine others = mine ++ t ∧ t.Nodup ∧
      (∀ e ∈ t, e ∈ others ∧ e ∉ mine) ∧
      (∀ e ∈ others, e ∈ Backup.mergeEvents mine others) := by
  induction others generalizing mine with
  | nil => exact ⟨[], by simp [Backup.mergeEvents], by simp, by simp, by simp⟩
  | cons e es ih =>
    by_cases hc : e ∈ mine
    · have hstep : Backup.mergeEvents mine (e :: es) =
          Backup.mergeEvents mine es := by
        simp [Backup.mergeEvents, hc]
      obtain ⟨t, h1, h2, h3, h4⟩ := ih mine
      rw [hstep]
      refine ⟨t, h1, h2, ?_, ?_⟩
      · intro x hxt
        obtain ⟨hxes, hxnot⟩ := h3 x hxt
        exact ⟨List.mem_cons_of_mem _ hxes, hxnot⟩
      · intro x hx
        rcases List.mem_cons.mp hx with rfl | hxs
        · rw [h1]; exact List.mem_append_left _ hc
        · exact h4 x hxs
    · have hstep : Backup.mergeEvents mine (e :: es) =
          Backup.mergeEvents (mine ++ [e]) es := by
        simp [Backup.mergeEvents, hc]
      obtain ⟨t, h1, h2, h3, h4⟩ := ih (mine ++ [e])
      rw [hstep]
      refine ⟨e :: t, ?_, ?_, ?_, ?_⟩
      · rw [h1]; simp
      · exact List.nodup_cons.mpr
          ⟨fun het => (h3 e het).2 (by simp), h2⟩
      · intro x hx
        rcases List.mem_cons.mp hx with rfl | hxt
        · exact ⟨List.mem_cons_self _ _, hc⟩
        · obtain ⟨hxes, hxnot⟩ := h3 x hxt
          exact ⟨List.mem_cons_of_mem _ hxes,
            fun hxm => hxnot (List.mem_append_left _ hxm)⟩
      · intro x hx
        rcases List.mem_cons.mp hx with rfl | hxs
        · rw [h1]; exact List.mem_append_left _ (by simp)
        · exact h4 x hxs

end LFCT
